import Mathlib

/-
Verification of the scope mechanism of the rlua embedding layer.

The development shallowly embeds the code of src/scope.rs (the `Scope` type,
its registration methods `create_function` / `create_function_mut`, the
destructor thunk pushed by `Scope::create_callback`, and the two-phase
`Drop` implementation) over an explicit model of the embedded Lua VM state.

The VM-side helpers that scope.rs calls (the `ffi` stack primitives, and
`StackGuard` / `assert_stack` / `take_userdata` from util.rs, and
`Lua::create_callback` / `push_ref` from lua.rs) are not part of the sampled
sources; their semantics are modelled from the specification (spec.md §4.1,
§4.2, §4.4, §6), as noted in each doc comment.
-/

set_option autoImplicit false

namespace Rlua

/-- Lua values as far as the scope mechanism observes them: the destructor
thunk only ever manipulates function values, their userdata upvalue, and
nil.  Other Lua value kinds are represented by the remaining constructors
for faithfulness of the stack model. -/
inductive LuaValue where
  | nil
  | boolean (b : Bool)
  | integer (n : Int)
  | function (id : Nat)
  | userdata (id : Nat)
deriving Repr, DecidableEq

/-- The embedded runtime state (`*mut ffi::lua_State`) as the scope code
observes it: an operand stack (head = top), a capacity bound for stack
headroom checks, the C-closure table mapping each callback function id to
its first upvalue, a fresh-id allocator, and an environment flag telling
whether the next callback registration in the VM succeeds (modelling the
fallibility of `Lua::create_callback`). -/
structure LuaState where
  stack : List LuaValue
  capacity : Nat
  funcs : List (Nat × LuaValue)
  nextId : Nat
  allocOk : Bool
deriving Repr, DecidableEq

/-- Lookup of the first upvalue of the function object with id `fid`. -/
def lookupFunc : List (Nat × LuaValue) → Nat → Option LuaValue
  | [], _ => none
  | (g, v) :: rest, fid => if g = fid then some v else lookupFunc rest fid

/-- Overwrite the first upvalue of the function object with id `fid`. -/
def setFunc : List (Nat × LuaValue) → Nat → LuaValue → List (Nat × LuaValue)
  | [], _, _ => []
  | (g, w) :: rest, fid, v =>
    if g = fid then (g, v) :: rest else (g, w) :: setFunc rest fid v

/-- Modelled from the spec (§6 boundary call convention): `lua_gettop`. -/
def lua_gettop (s : LuaState) : Nat := s.stack.length

/-- Modelled from the spec (§6): `lua_settop`, truncating the stack down to
`n` slots, or padding with nil when growing. -/
def lua_settop (s : LuaState) (n : Nat) : LuaState :=
  if n ≤ s.stack.length then
    { s with stack := s.stack.drop (s.stack.length - n) }
  else
    { s with stack := List.replicate (n - s.stack.length) LuaValue.nil ++ s.stack }

/-- Modelled from the spec (§6): `lua_pop`. -/
def lua_pop (s : LuaState) (n : Nat) : LuaState :=
  { s with stack := s.stack.drop n }

/-- Modelled from the spec (§6): `lua_pushnil`. -/
def lua_pushnil (s : LuaState) : LuaState :=
  { s with stack := LuaValue.nil :: s.stack }

/-- Modelled from the spec (§4.2): `push_ref` from lua.rs re-materializes the
referenced function value on top of the operand stack. -/
def push_ref (s : LuaState) (fid : Nat) : LuaState :=
  { s with stack := LuaValue.function fid :: s.stack }

/-- Modelled from the spec (§6): `lua_getupvalue(state, -1, 1)` as used by the
destructor thunk: the first upvalue of the function at the stack top is
pushed.  `none` models the C-level precondition failure (top not a function
object of the VM). -/
def lua_getupvalue (s : LuaState) : Option LuaState :=
  match s.stack with
  | LuaValue.function fid :: _ =>
    match lookupFunc s.funcs fid with
    | some v => some { s with stack := v :: s.stack }
    | none => none
  | _ => none

/-- Modelled from the spec (§6): `lua_setupvalue(state, -2, 1)` as used by the
destructor thunk: the value at the top is popped and stored as the first
upvalue of the function at index -2. -/
def lua_setupvalue (s : LuaState) : Option LuaState :=
  match s.stack with
  | v :: LuaValue.function fid :: rest =>
    some { s with stack := LuaValue.function fid :: rest,
                  funcs := setFunc s.funcs fid v }
  | _ => none

/-- Modelled from the spec (§4.1, util.rs): `assert_stack` checks that at
least `n` free stack slots are available; a `false` result models the
fail-fast (non-recoverable) abort path. -/
def assert_stack (s : LuaState) (n : Nat) : Bool :=
  s.stack.length + n ≤ s.capacity

/-- Modelled from the spec (§4.5, util.rs): `take_userdata` pops the userdata
at the stack top, taking host-side ownership of the contained object (its
id is returned).  `none` models the C-level precondition failure (top not a
live full userdata). -/
def take_userdata (s : LuaState) : Option (LuaState × Nat) :=
  match s.stack with
  | LuaValue.userdata uid :: rest => some ({ s with stack := rest }, uid)
  | _ => none

/-- Modelled from the spec (§4.1, util.rs): a `StackGuard` records the stack
top at construction. -/
structure StackGuard where
  top : Nat
deriving Repr, DecidableEq

/-- StackGuard construction records the current operand stack top. -/
def StackGuard.new (s : LuaState) : StackGuard := StackGuard.mk (lua_gettop s)

/-- StackGuard destruction restores the recorded operand stack top. -/
def StackGuard.restore (g : StackGuard) (s : LuaState) : LuaState :=
  lua_settop s g.top

/-- The error taxonomy of the embedding as far as the scope code observes it
(rlua `Error`): `CallbackError` for errors surfaced through the VM's normal
error path, `RecursiveMutCallback` for re-entering an `FnMut` callback, and
`MemoryError` for a failing VM-side registration. -/
inductive Error where
  | CallbackError
  | RecursiveMutCallback
  | MemoryError
deriving Repr, DecidableEq

/-- A destructor thunk pushed by `Scope::create_callback` (scope.rs lines
99 to 113).  The closure captures the cloned function handle `f_destruct`;
here that capture is represented by the registry id of the function it
refers to, and `runDestructor` below gives the closure body's semantics. -/
structure Destructor where
  fid : Nat
deriving Repr, DecidableEq

/-- The body of the destructor thunk pushed by `Scope::create_callback`
(scope.rs lines 99 to 113), step for step:
open a `StackGuard` on the re-acquired state handle, `assert_stack(state, 2)`
(`none` on the fail-fast abort path), push the function value via its
reference (`push_ref`), `lua_getupvalue(state, -1, 1)`,
`take_userdata::<Callback>(state)`, `lua_pushnil(state)`,
`lua_setupvalue(state, -2, 1)`, `lua_pop(state, 1)`, let the guard restore
the recorded top, and return the extracted userdata. -/
def runDestructor (s : LuaState) (d : Destructor) : Option (LuaState × Nat) :=
  let sg := StackGuard.new s
  if assert_stack s 2 then
    let s1 := push_ref s d.fid
    match lua_getupvalue s1 with
    | none => none
    | some s2 =>
      match take_userdata s2 with
      | none => none
      | some (s3, uid) =>
        let s4 := lua_pushnil s3
        match lua_setupvalue s4 with
        | none => none
        | some s5 =>
          let s6 := lua_pop s5 1
          some (StackGuard.restore sg s6, uid)
  else
    none

/-- The `Scope` of scope.rs: a growable list of destructor thunks.  The
borrowed `&Lua` of the Rust struct is represented by passing the `LuaState`
explicitly to each operation. -/
structure Scope where
  destructors : List Destructor
deriving Repr, DecidableEq

/-- `Scope::new` (scope.rs lines 28 to 34): scope with no destructors. -/
def Scope.new : Scope := Scope.mk []

/-- Modelled from the spec (§4.4, lua.rs): `Lua::create_callback` wraps the
host callback as an opaque userdata object and produces a function whose
first upvalue is that userdata; it is fallible.  The model allocates a fresh
function id and a fresh userdata id, and fails with a memory error when the
environment flag `allocOk` is down. -/
def LuaState.create_callback (s : LuaState) : Except Error (Nat × LuaState) :=
  if s.allocOk then
    Except.ok (s.nextId,
      { s with funcs := (s.nextId, LuaValue.userdata (s.nextId + 1)) :: s.funcs,
               nextId := s.nextId + 2 })
  else
    Except.error Error.MemoryError

/-- `Scope::create_callback` (scope.rs lines 90 to 115): delegate to
`Lua::create_callback`; on success push a destructor thunk for the new
function at the end of the destructor list, on failure propagate the error
leaving the scope and the state untouched (the early return of the `?`
operator). -/
def Scope.create_callback (sc : Scope) (s : LuaState) :
    Except Error Nat × Scope × LuaState :=
  match LuaState.create_callback s with
  | Except.error e => (Except.error e, sc, s)
  | Except.ok (fid, s') =>
    (Except.ok fid, Scope.mk (sc.destructors ++ [Destructor.mk fid]), s')

/-- `Scope::create_function` (scope.rs lines 43 to 63): wraps the closure in
the argument-marshaling adapter and registers it through
`Scope::create_callback`.  The marshaling wrapper is invisible at this
abstraction level, so registration behaves exactly as `create_callback`. -/
def Scope.create_function (sc : Scope) (s : LuaState) :
    Except Error Nat × Scope × LuaState :=
  Scope.create_callback sc s

/-- `Scope::create_function_mut` (scope.rs lines 73 to 85): wraps the `FnMut`
closure in a `RefCell` exclusivity guard (modelled by `mutWrapperCall`
below) and then defers to `create_function`; registration-level behavior is
identical. -/
def Scope.create_function_mut (sc : Scope) (s : LuaState) :
    Except Error Nat × Scope × LuaState :=
  Scope.create_function sc s

/-- Observable teardown events: `invalidate fid` records that the destructor
thunk for function `fid` ran (VM-side invalidation), `hostDrop uid` records
that the extracted host object `uid` was destroyed (its own drop ran). -/
inductive Event where
  | invalidate (fid : Nat)
  | hostDrop (uid : Nat)
deriving Repr, DecidableEq

/-- Truth of an event being a VM-side invalidation. -/
def Event.isInvalidate : Event → Bool
  | Event.invalidate _ => true
  | Event.hostDrop _ => false

/-- Truth of an event being a host-object destruction. -/
def Event.isHostDrop : Event → Bool
  | Event.invalidate _ => false
  | Event.hostDrop _ => true

/-- Phase one of `impl Drop for Scope` (scope.rs lines 124 to 129): the
drained destructor thunks run front to back, each extracted host object is
collected, and an invalidation event is recorded per thunk in execution
order. -/
def runDestructors (s : LuaState) :
    List Destructor → Option (LuaState × List Nat × List Event)
  | [] => some (s, [], [])
  | d :: rest =>
    match runDestructor s d with
    | none => none
    | some (s1, uid) =>
      match runDestructors s1 rest with
      | none => none
      | some (s2, uids, evs) =>
        some (s2, uid :: uids, Event.invalidate d.fid :: evs)

/-- `impl Drop for Scope` (scope.rs lines 118 to 132): phase one drains the
destructor list and collects the extracted host objects into the holding
vector `to_drop`; phase two drops that vector, destroying the extracted
objects front to back.  The result is the final state, the now-inert scope,
the holding sequence, and the full event trace (phase-one events followed
by phase-two events). -/
def Scope.drop (sc : Scope) (s : LuaState) :
    Option (LuaState × Scope × List Nat × List Event) :=
  match runDestructors s sc.destructors with
  | none => none
  | some (s', uids, evs) =>
    some (s', Scope.mk [], uids, evs ++ uids.map Event.hostDrop)

/-- Host-side shared state observed by the tests (tests/scope.rs): the shared
counter cell and the strong count of the `Rc` captured by the callback. -/
structure HostState where
  counter : Int
  rcCount : Nat
deriving Repr, DecidableEq

/-- Modelled from the spec (§4.4, §7, lua.rs trampoline): invoking a callback
function runs the host behavior attached to the userdata in its first
upvalue; when the upvalue has been overwritten with nil by a scope
destructor, the call fails with a `CallbackError` surfaced through the VM's
normal error path. -/
def callFunction (beh : Nat → HostState → HostState) (s : LuaState)
    (h : HostState) (fid : Nat) : Except Error HostState :=
  match lookupFunc s.funcs fid with
  | some (LuaValue.userdata uid) => Except.ok (beh uid h)
  | _ => Except.error Error.CallbackError

/-- The borrow flag of the `RefCell` wrapped around an `FnMut` callback by
`Scope::create_function_mut` (scope.rs line 79). -/
structure BorrowFlag where
  borrowed : Bool
deriving Repr, DecidableEq

/-- Semantics of `RefCell::try_borrow_mut`: fails when already mutably
borrowed, otherwise yields the flag in its borrowed state. -/
def try_borrow_mut (c : BorrowFlag) : Option BorrowFlag :=
  if c.borrowed then none else some (BorrowFlag.mk true)

/-- Release of the mutable borrow when the `RefMut` guard drops. -/
def releaseBorrow (_ : BorrowFlag) : BorrowFlag := BorrowFlag.mk false

/-- The closure built by `Scope::create_function_mut` (scope.rs lines 79 to
84): attempt `try_borrow_mut` on the cell; on failure return the
`RecursiveMutCallback` error leaving the flag as it was, on success run the
wrapped `FnMut` body on the captured state and release the borrow. -/
def mutWrapperCall {σ α β : Type} (c : BorrowFlag)
    (f : σ → α → Except Error (β × σ)) (st : σ) (a : α) :
    Except Error (β × σ) × BorrowFlag :=
  match try_borrow_mut c with
  | none => (Except.error Error.RecursiveMutCallback, c)
  | some c1 => (f st a, releaseBorrow c1)

/-- Registration of `n` successive scope functions, returning the final
scope, the final state, and the registered function ids in registration
order. -/
def registerN : Nat → Scope → LuaState → Scope × LuaState × List Nat
  | 0, sc, s => (sc, s, [])
  | Nat.succ n, sc, s =>
    match Scope.create_function sc s with
    | (Except.ok fid, sc', s') =>
      match registerN n sc' s' with
      | (sc2, s2, fids) => (sc2, s2, fid :: fids)
    | (Except.error _, sc', s') => (sc', s', [])

/-- The function ids produced by `n` successful registrations starting from
fresh-id base `b`: `b, b + 2, b + 4, ...`. -/
def regFids (b : Nat) : Nat → List Nat
  | 0 => []
  | Nat.succ n => b :: regFids (b + 2) n

/-- The function-object entries produced by `n` successful registrations
starting from fresh-id base `b`, in the cons-to-front order in which
`Lua::create_callback` extends the function table. -/
def regFuncs (b : Nat) : Nat → List (Nat × LuaValue)
  | 0 => []
  | Nat.succ n => regFuncs (b + 2) n ++ [(b, LuaValue.userdata (b + 1))]

/-- Host behavior of the test callback of `scope_func` (tests/scope.rs lines
13 to 18): set the shared counter to 42. -/
def scenarioBeh : Nat → HostState → HostState :=
  fun _ h => { h with counter := 42 }

/-- Host state at the start of the `scope_func` test: counter 0, one strong
reference to the shared `Rc` cell. -/
def scenarioHost0 : HostState := HostState.mk 0 1

/-- Fresh interpreter state for the test scenario. -/
def scenarioS0 : LuaState :=
  LuaState.mk [] 20 [] 0 true

/-- Registration captures a clone of the shared `Rc` inside the callback
userdata: the strong count goes up by one (tests/scope.rs line 12). -/
def registerClone (h : HostState) : HostState :=
  { h with rcCount := h.rcCount + 1 }

/-- Phase two of scope teardown at the host level: destroying each extracted
host object releases the `Rc` clone it captured. -/
def dropExtracted (uids : List Nat) (h : HostState) : HostState :=
  uids.foldl (fun h2 _ => { h2 with rcCount := h2.rcCount - 1 }) h

/-- The `scope_func` test scenario (tests/scope.rs lines 6 to 35): register a
callback that sets the shared counter to 42, invoke it inside the scope
body, then drop the scope.  The result is the final host state together
with the strong count observed inside the scope body right after
registration. -/
def scenarioRun : Option (HostState × Nat) :=
  match Scope.create_function Scope.new scenarioS0 with
  | (Except.ok fid, sc1, s1) =>
    let h1 := registerClone scenarioHost0
    match callFunction scenarioBeh s1 h1 fid with
    | Except.ok h2 =>
      match Scope.drop sc1 s1 with
      | some (_, _, uids, _) => some (dropExtracted uids h2, h1.rcCount)
      | none => none
    | Except.error _ => none
  | (Except.error _, _, _) => none

/-- Concrete state used by the witnesses: one registered scope function with
id 0 whose first upvalue is the callback userdata 1. -/
def wState : LuaState :=
  LuaState.mk [] 10 [(0, LuaValue.userdata 1)] 2 true

/-- Concrete state used by the witnesses with insufficient stack headroom. -/
def wTight : LuaState :=
  LuaState.mk [LuaValue.nil] 2 [(0, LuaValue.userdata 1)] 2 true

/-- Concrete scope used by the witnesses: the single destructor for the
registered function 0. -/
def wScope : Scope := Scope.mk [Destructor.mk 0]

/-- Concrete state used by the witnesses whose next VM-side registration
fails. -/
def wFail : LuaState :=
  LuaState.mk [] 10 [] 0 false

/-- Updating a key that is present makes lookup return the new value. -/
theorem lookupFunc_setFunc_self (fs : List (Nat × LuaValue)) (fid : Nat)
    (v w : LuaValue) (h : lookupFunc fs fid = some w) :
    lookupFunc (setFunc fs fid v) fid = some v := by
  induction fs with
  | nil => simp [lookupFunc] at h
  | cons p rest ih =>
    obtain ⟨g, u⟩ := p
    by_cases hg : g = fid
    · subst hg
      simp [lookupFunc, setFunc]
    · simp [lookupFunc, setFunc, hg] at h ⊢
      exact ih h

/-- Updating one key leaves lookup at any other key unchanged. -/
theorem lookupFunc_setFunc_ne (fs : List (Nat × LuaValue)) (fid g : Nat)
    (v : LuaValue) (h : g ≠ fid) :
    lookupFunc (setFunc fs fid v) g = lookupFunc fs g := by
  induction fs with
  | nil => simp [setFunc]
  | cons p rest ih =>
    obtain ⟨k, u⟩ := p
    by_cases hk : k = fid
    · subst hk
      simp [lookupFunc, setFunc, Ne.symm h]
    · simp [lookupFunc, setFunc, hk]
      by_cases hkg : k = g
      · simp [hkg]
      · simp [hkg, ih]

/-- Forward evaluation of the destructor thunk: on a state where the
registered function's first upvalue is the callback userdata and two free
stack slots are available, the thunk succeeds, returns the extracted
userdata, overwrites the upvalue with nil, and leaves every other component
of the state (the operand stack included) exactly as it found it. -/
theorem runDestructor_ok (s : LuaState) (d : Destructor) (uid : Nat)
    (h1 : lookupFunc s.funcs d.fid = some (LuaValue.userdata uid))
    (h2 : s.stack.length + 2 ≤ s.capacity) :
    runDestructor s d =
      some ({ s with funcs := setFunc s.funcs d.fid LuaValue.nil }, uid) := by
  obtain ⟨st, cap, fs, nid, al⟩ := s
  simp only [runDestructor, StackGuard.new, lua_gettop, assert_stack,
    push_ref, lua_getupvalue, lua_pushnil, take_userdata, lua_setupvalue,
    lua_pop, StackGuard.restore, lua_settop] at h1 h2 ⊢
  rw [if_pos (by simpa using h2)]
  simp only [h1]
  simp [Nat.sub_self]

/-- Inversion of the destructor thunk: whenever it succeeds, the function's
first upvalue was the extracted callback userdata, and the resulting state
is the input state with exactly that upvalue overwritten by nil. -/
theorem runDestructor_inv (s : LuaState) (d : Destructor) (s1 : LuaState)
    (uid : Nat) (h : runDestructor s d = some (s1, uid)) :
    lookupFunc s.funcs d.fid = some (LuaValue.userdata uid) ∧
    s1 = { s with funcs := setFunc s.funcs d.fid LuaValue.nil } := by
  obtain ⟨st, cap, fs, nid, al⟩ := s
  by_cases hcap : st.length + 2 ≤ cap
  · cases hlk : lookupFunc fs d.fid with
    | none =>
      simp only [runDestructor, StackGuard.new, lua_gettop, assert_stack,
        push_ref, lua_getupvalue, lua_pushnil, take_userdata, lua_setupvalue,
        lua_pop, StackGuard.restore, lua_settop, hlk] at h
      rw [if_pos (by simpa using hcap)] at h
      simp at h
    | some v =>
      cases v with
      | userdata u =>
        simp only [runDestructor, StackGuard.new, lua_gettop, assert_stack,
          push_ref, lua_getupvalue, lua_pushnil, take_userdata, lua_setupvalue,
          lua_pop, StackGuard.restore, lua_settop, hlk] at h
        rw [if_pos (by simpa using hcap)] at h
        simp [Nat.sub_self] at h
        obtain ⟨hs1, huid⟩ := h
        subst huid
        exact ⟨rfl, hs1.symm⟩
      | nil =>
        simp only [runDestructor, StackGuard.new, lua_gettop, assert_stack,
          push_ref, lua_getupvalue, lua_pushnil, take_userdata, lua_setupvalue,
          lua_pop, StackGuard.restore, lua_settop, hlk] at h
        rw [if_pos (by simpa using hcap)] at h
        simp at h
      | boolean b =>
        simp only [runDestructor, StackGuard.new, lua_gettop, assert_stack,
          push_ref, lua_getupvalue, lua_pushnil, take_userdata, lua_setupvalue,
          lua_pop, StackGuard.restore, lua_settop, hlk] at h
        rw [if_pos (by simpa using hcap)] at h
        simp at h
      | integer n =>
        simp only [runDestructor, StackGuard.new, lua_gettop, assert_stack,
          push_ref, lua_getupvalue, lua_pushnil, take_userdata, lua_setupvalue,
          lua_pop, StackGuard.restore, lua_settop, hlk] at h
        rw [if_pos (by simpa using hcap)] at h
        simp at h
      | function g =>
        simp only [runDestructor, StackGuard.new, lua_gettop, assert_stack,
          push_ref, lua_getupvalue, lua_pushnil, take_userdata, lua_setupvalue,
          lua_pop, StackGuard.restore, lua_settop, hlk] at h
        rw [if_pos (by simpa using hcap)] at h
        simp at h
  · simp only [runDestructor, assert_stack] at h
    rw [if_neg (by simpa using hcap)] at h
    simp at h

/-- Inversion of phase one: whenever the drained destructors all run, the
recorded invalidation events are exactly the destructors in list order, one
extracted object is collected per destructor, and the operand stack and
capacity come out unchanged. -/
theorem runDestructors_inv (ds : List Destructor) :
    ∀ s s' : LuaState, ∀ uids : List Nat, ∀ evs : List Event,
    runDestructors s ds = some (s', uids, evs) →
    evs = ds.map (fun d => Event.invalidate d.fid) ∧
    uids.length = ds.length ∧
    s'.stack = s.stack ∧ s'.capacity = s.capacity := by
  induction ds with
  | nil =>
    intro s s' uids evs h
    simp [runDestructors] at h
    obtain ⟨h1, h2, h3⟩ := h
    subst h1 h2 h3
    simp
  | cons d rest ih =>
    intro s s' uids evs h
    cases h1 : runDestructor s d with
    | none => simp [runDestructors, h1] at h
    | some r =>
      obtain ⟨s1, uid⟩ := r
      cases h2 : runDestructors s1 rest with
      | none => simp [runDestructors, h1, h2] at h
      | some r2 =>
        obtain ⟨s2, uids2, evs2⟩ := r2
        simp only [runDestructors, h1, h2, Option.some.injEq,
          Prod.mk.injEq] at h
        obtain ⟨hs, hu, he⟩ := h
        obtain ⟨hlk, hst⟩ := runDestructor_inv s d s1 uid h1
        obtain ⟨he2, hl2, hstk2, hcap2⟩ := ih s1 s2 uids2 evs2 h2
        subst hs hu he
        refine ⟨by simp [he2], by simp [hl2], ?_, ?_⟩
        · rw [hstk2, hst]
        · rw [hcap2, hst]

/-- Phase one preserves already-invalidated upvalues: a function slot that
holds nil still holds nil after any successful destructor run. -/
theorem runDestructors_preserves_nil (ds : List Destructor) :
    ∀ s s' : LuaState, ∀ uids : List Nat, ∀ evs : List Event,
    runDestructors s ds = some (s', uids, evs) →
    ∀ fid : Nat, lookupFunc s.funcs fid = some LuaValue.nil →
    lookupFunc s'.funcs fid = some LuaValue.nil := by
  induction ds with
  | nil =>
    intro s s' uids evs h fid hnil
    simp [runDestructors] at h
    obtain ⟨h1, _, _⟩ := h
    subst h1
    exact hnil
  | cons d rest ih =>
    intro s s' uids evs h fid hnil
    cases h1 : runDestructor s d with
    | none => simp [runDestructors, h1] at h
    | some r =>
      obtain ⟨s1, uid⟩ := r
      cases h2 : runDestructors s1 rest with
      | none => simp [runDestructors, h1, h2] at h
      | some r2 =>
        obtain ⟨s2, uids2, evs2⟩ := r2
        simp only [runDestructors, h1, h2, Option.some.injEq,
          Prod.mk.injEq] at h
        obtain ⟨hs, _, _⟩ := h
        subst hs
        obtain ⟨hlk, hst⟩ := runDestructor_inv s d s1 uid h1
        have hne : fid ≠ d.fid := by
          intro hcon
          rw [hcon, hlk] at hnil
          exact LuaValue.noConfusion (Option.some.inj hnil)
        have hkeep : lookupFunc s1.funcs fid = some LuaValue.nil := by
          rw [hst]
          simpa [lookupFunc_setFunc_ne s.funcs d.fid fid LuaValue.nil hne]
            using hnil
        exact ih s1 s2 uids2 evs2 h2 fid hkeep

/-- After a successful phase one, the upvalue of every function whose
destructor was drained holds nil: all VM-side invalidations have been
carried out. -/
theorem runDestructors_invalidated (ds : List Destructor) :
    ∀ s s' : LuaState, ∀ uids : List Nat, ∀ evs : List Event,
    runDestructors s ds = some (s', uids, evs) →
    ∀ d ∈ ds, lookupFunc s'.funcs d.fid = some LuaValue.nil := by
  induction ds with
  | nil =>
    intro s s' uids evs h d hd
    exact absurd hd (List.not_mem_nil d)
  | cons d0 rest ih =>
    intro s s' uids evs h d hd
    cases h1 : runDestructor s d0 with
    | none => simp [runDestructors, h1] at h
    | some r =>
      obtain ⟨s1, uid⟩ := r
      cases h2 : runDestructors s1 rest with
      | none => simp [runDestructors, h1, h2] at h
      | some r2 =>
        obtain ⟨s2, uids2, evs2⟩ := r2
        simp only [runDestructors, h1, h2, Option.some.injEq,
          Prod.mk.injEq] at h
        obtain ⟨hs, _, _⟩ := h
        subst hs
        obtain ⟨hlk, hst⟩ := runDestructor_inv s d0 s1 uid h1
        rcases List.mem_cons.mp hd with hd0 | hdrest
        · subst hd0
          have h1nil : lookupFunc s1.funcs d.fid = some LuaValue.nil := by
            rw [hst]
            exact lookupFunc_setFunc_self s.funcs d.fid LuaValue.nil
              (LuaValue.userdata uid) hlk
          exact runDestructors_preserves_nil rest s1 s2 uids2 evs2 h2 d.fid h1nil
        · exact ih s1 s2 uids2 evs2 h2 d hdrest

/-- Forward evaluation of phase one: when every drained destructor's function
still holds its callback userdata upvalue, the registered function ids are
pairwise distinct, and two free stack slots are available, every destructor
runs successfully. -/
theorem runDestructors_ok (ds : List Destructor) :
    ∀ s : LuaState,
    (∀ d ∈ ds, ∃ uid, lookupFunc s.funcs d.fid = some (LuaValue.userdata uid)) →
    (ds.map Destructor.fid).Nodup →
    s.stack.length + 2 ≤ s.capacity →
    ∃ s' uids evs, runDestructors s ds = some (s', uids, evs) := by
  induction ds with
  | nil =>
    intro s _ _ _
    exact ⟨s, [], [], rfl⟩
  | cons d rest ih =>
    intro s hud hnd hcap
    obtain ⟨uid, hlk⟩ := hud d (List.mem_cons_self d rest)
    have hrun := runDestructor_ok s d uid hlk hcap
    have hnd' : (∀ x ∈ rest, ¬x.fid = d.fid) ∧
        (rest.map Destructor.fid).Nodup := by simpa using hnd
    have hudrest : ∀ e ∈ rest, ∃ u,
        lookupFunc (setFunc s.funcs d.fid LuaValue.nil) e.fid =
          some (LuaValue.userdata u) := by
      intro e he
      obtain ⟨u, hu⟩ := hud e (List.mem_cons_of_mem d he)
      refine ⟨u, ?_⟩
      rw [lookupFunc_setFunc_ne s.funcs d.fid e.fid LuaValue.nil (hnd'.1 e he)]
      exact hu
    obtain ⟨s2, uids2, evs2, hrest⟩ :=
      ih { s with funcs := setFunc s.funcs d.fid LuaValue.nil }
        hudrest hnd'.2 hcap
    refine ⟨s2, uid :: uids2, Event.invalidate d.fid :: evs2, ?_⟩
    simp only [runDestructors, hrun, hrest]

/-- Every id produced from base `b` is at least `b`. -/
theorem regFids_ge (n : Nat) : ∀ b x : Nat, x ∈ regFids b n → b ≤ x := by
  induction n with
  | zero => intro b x hx; simp [regFids] at hx
  | succ n ih =>
    intro b x hx
    rcases List.mem_cons.mp hx with hx0 | hxr
    · exact Nat.le_of_eq hx0.symm
    · exact Nat.le_trans (Nat.le_add_right b 2) (ih (b + 2) x hxr)

/-- The ids produced by successive registrations are pairwise distinct. -/
theorem regFids_nodup (n : Nat) : ∀ b : Nat, (regFids b n).Nodup := by
  induction n with
  | zero => intro b; simp [regFids]
  | succ n ih =>
    intro b
    refine List.nodup_cons.mpr ⟨?_, ih (b + 2)⟩
    intro hmem
    have := regFids_ge n (b + 2) b hmem
    omega

/-- Every function-table entry produced from base `b` has key at least `b`. -/
theorem regFuncs_key_ge (n : Nat) :
    ∀ b : Nat, ∀ p ∈ regFuncs b n, b ≤ p.1 := by
  induction n with
  | zero => intro b p hp; simp [regFuncs] at hp
  | succ n ih =>
    intro b p hp
    rcases List.mem_append.mp hp with hpl | hpr
    · exact Nat.le_trans (Nat.le_add_right b 2) (ih (b + 2) p hpl)
    · simp at hpr
      subst hpr
      exact Nat.le_refl b

/-- Lookup skips over an entry block that does not contain the key. -/
theorem lookupFunc_append_right (l1 l2 : List (Nat × LuaValue)) (fid : Nat)
    (h : ∀ p ∈ l1, p.1 ≠ fid) :
    lookupFunc (l1 ++ l2) fid = lookupFunc l2 fid := by
  induction l1 with
  | nil => simp
  | cons p rest ih =>
    obtain ⟨g, v⟩ := p
    have hg : g ≠ fid := h (g, v) (List.mem_cons_self (g, v) rest)
    simp only [List.cons_append, lookupFunc, if_neg hg]
    exact ih fun q hq => h q (List.mem_cons_of_mem (g, v) hq)

/-- Lookup of a registered id in the produced function table finds its
callback userdata. -/
theorem lookup_regFids (n : Nat) :
    ∀ b fid : Nat, ∀ tail : List (Nat × LuaValue), fid ∈ regFids b n →
    lookupFunc (regFuncs b n ++ tail) fid =
      some (LuaValue.userdata (fid + 1)) := by
  induction n with
  | zero => intro b fid tail hf; simp [regFids] at hf
  | succ n ih =>
    intro b fid tail hf
    have hsplit : regFuncs b (Nat.succ n) ++ tail =
        regFuncs (b + 2) n ++ ((b, LuaValue.userdata (b + 1)) :: tail) := by
      simp [regFuncs, List.append_assoc]
    rw [hsplit]
    rcases List.mem_cons.mp hf with hf0 | hfr
    · subst hf0
      rw [lookupFunc_append_right (regFuncs (fid + 2) n)
        ((fid, LuaValue.userdata (fid + 1)) :: tail) fid ?hkeys]
      · simp [lookupFunc]
      · intro p hp
        have := regFuncs_key_ge n (fid + 2) p hp
        omega
    · exact ih (b + 2) fid ((b, LuaValue.userdata (b + 1)) :: tail) hfr

/-- Closed form of `n` successful registrations: destructors are appended at
the end of the list in registration order, the function table is extended
with one callback entry per registration, and the returned ids are the
fresh ids in registration order. -/
theorem registerN_eq (n : Nat) :
    ∀ (sc : Scope) (s : LuaState), s.allocOk = true →
    registerN n sc s =
      (Scope.mk (sc.destructors ++ (regFids s.nextId n).map Destructor.mk),
       { s with funcs := regFuncs s.nextId n ++ s.funcs,
                nextId := s.nextId + 2 * n },
       regFids s.nextId n) := by
  induction n with
  | zero =>
    intro sc s _
    simp [registerN, regFids, regFuncs]
  | succ n ih =>
    intro sc s h
    have hstep : Scope.create_function sc s =
        (Except.ok s.nextId,
         Scope.mk (sc.destructors ++ [Destructor.mk s.nextId]),
         { s with funcs := (s.nextId, LuaValue.userdata (s.nextId + 1)) :: s.funcs,
                  nextId := s.nextId + 2 }) := by
      simp [Scope.create_function, Scope.create_callback,
        LuaState.create_callback, h]
    have halloc1 :
        ({ s with funcs := (s.nextId, LuaValue.userdata (s.nextId + 1)) :: s.funcs,
                  nextId := s.nextId + 2 } : LuaState).allocOk = true := h
    rw [registerN, hstep]
    dsimp only
    rw [ih (Scope.mk (sc.destructors ++ [Destructor.mk s.nextId]))
        { s with funcs := (s.nextId, LuaValue.userdata (s.nextId + 1)) :: s.funcs,
                 nextId := s.nextId + 2 } halloc1]
    dsimp only
    refine Prod.ext ?_ (Prod.ext ?_ ?_)
    · simp [regFids, List.append_assoc]
    · simp [regFids, regFuncs, List.append_assoc, Nat.mul_succ]
      omega
    · simp [regFids]

/-- The phase-one part of a drop trace is all that the invalidation filter
keeps: every phase-one event is an invalidation and every phase-two event is
a host-object destruction. -/
theorem filter_trace (ds : List Destructor) (uids : List Nat) :
    ((ds.map fun d => Event.invalidate d.fid) ++
      uids.map Event.hostDrop).filter Event.isInvalidate =
      ds.map fun d => Event.invalidate d.fid := by
  rw [List.filter_append]
  have h1 : (ds.map fun d => Event.invalidate d.fid).filter Event.isInvalidate =
      ds.map fun d => Event.invalidate d.fid := by
    apply List.filter_eq_self.mpr
    intro e he
    obtain ⟨d2, _, rfl⟩ := List.mem_map.mp he
    rfl
  have h2 : (uids.map Event.hostDrop).filter Event.isInvalidate = [] := by
    apply List.filter_eq_nil_iff.mpr
    intro e he
    obtain ⟨u, _, rfl⟩ := List.mem_map.mp he
    simp [Event.isInvalidate]
  rw [h1, h2, List.append_nil]

/-- C1: for every function registered through `Scope::create_function` or
`Scope::create_function_mut` (that is, every function one of the scope's
destructor thunks refers to), invoking it after the `Scope` has been
dropped fails with the recoverable `CallbackError` surfaced through the
VM's normal error path, whatever host behavior the callback had and
whatever host state the call is made in; every script- or host-held alias
of the function designates the same function id, so this covers all
aliases obtained during the scope body. -/
theorem scope_expired_call_errors (sc : Scope) (s s' : LuaState) (sc' : Scope)
    (uids : List Nat) (evs : List Event) (d : Destructor)
    (beh : Nat → HostState → HostState) (hst : HostState)
    (hd : d ∈ sc.destructors)
    (h : Scope.drop sc s = some (s', sc', uids, evs)) :
    callFunction beh s' hst d.fid = Except.error Error.CallbackError := by
  cases h1 : runDestructors s sc.destructors with
  | none => simp [Scope.drop, h1] at h
  | some r =>
    obtain ⟨s1, uids1, evs1⟩ := r
    simp only [Scope.drop, h1, Option.some.injEq, Prod.mk.injEq] at h
    obtain ⟨hs, _, _, _⟩ := h
    subst hs
    have hnil :=
      runDestructors_invalidated sc.destructors s s1 uids1 evs1 h1 d hd
    simp [callFunction, hnil]

/-- Closed witness for C1: after dropping the one-destructor scope, calling
the registered function id 0 fails with `CallbackError`. -/
theorem scope_expired_call_errors_witness :
    callFunction (fun _ h2 => h2)
      (LuaState.mk [] 10 [(0, LuaValue.nil)] 2 true) (HostState.mk 0 1) 0 =
      Except.error Error.CallbackError :=
  scope_expired_call_errors wScope wState
    (LuaState.mk [] 10 [(0, LuaValue.nil)] 2 true) (Scope.mk []) [1]
    [Event.invalidate 0, Event.hostDrop 1] (Destructor.mk 0)
    (fun _ h2 => h2) (HostState.mk 0 1) (by decide) (by decide)

/-- C2: dropping a `Scope` is two-phase.  Whenever the drop protocol runs,
phase one collects exactly one extracted host object per destructor into
the holding sequence, the event trace is all the VM-side invalidations (in
registration order) strictly followed by all the host-object destructions,
and by the time any host object is destroyed every registered function's
upvalue has already been invalidated to nil. -/
theorem scope_drop_two_phase (sc : Scope) (s s' : LuaState) (sc' : Scope)
    (uids : List Nat) (evs : List Event)
    (h : Scope.drop sc s = some (s', sc', uids, evs)) :
    uids.length = sc.destructors.length ∧
    evs = sc.destructors.map (fun d => Event.invalidate d.fid) ++
      uids.map Event.hostDrop ∧
    ∀ d ∈ sc.destructors, lookupFunc s'.funcs d.fid = some LuaValue.nil := by
  cases h1 : runDestructors s sc.destructors with
  | none => simp [Scope.drop, h1] at h
  | some r =>
    obtain ⟨s1, uids1, evs1⟩ := r
    simp only [Scope.drop, h1, Option.some.injEq, Prod.mk.injEq] at h
    obtain ⟨hs, _, hu, he⟩ := h
    subst hs hu he
    obtain ⟨hevs, hlen, _, _⟩ :=
      runDestructors_inv sc.destructors s s1 uids1 evs1 h1
    subst hevs
    exact ⟨hlen, rfl,
      runDestructors_invalidated sc.destructors s s1 uids1
        (sc.destructors.map fun d => Event.invalidate d.fid) h1⟩

/-- Closed witness for C2 at the one-destructor scope. -/
theorem scope_drop_two_phase_witness :
    ([1] : List Nat).length = wScope.destructors.length ∧
    ([Event.invalidate 0, Event.hostDrop 1] : List Event) =
      wScope.destructors.map (fun d => Event.invalidate d.fid) ++
        ([1] : List Nat).map Event.hostDrop := by
  have h := scope_drop_two_phase wScope wState
    (LuaState.mk [] 10 [(0, LuaValue.nil)] 2 true) (Scope.mk []) [1]
    [Event.invalidate 0, Event.hostDrop 1] (by decide)
  exact ⟨h.1, h.2.1⟩

/-- C3: for every sequence of successful registrations made through a fresh
`Scope`, the destructor thunks are appended in registration order (the
destructor list is exactly the registered function ids in order), the drop
protocol runs them all, and the invalidation events of the drop trace are
exactly the registered ids in that same registration order. -/
theorem scope_registration_order (s : LuaState) (n : Nat) (sc : Scope)
    (s' : LuaState) (fids : List Nat)
    (halloc : s.allocOk = true) (hcap : s.stack.length + 2 ≤ s.capacity)
    (hreg : registerN n Scope.new s = (sc, s', fids)) :
    sc.destructors = fids.map Destructor.mk ∧
    (Scope.drop sc s').isSome = true ∧
    ∀ s2 sc2 uids2 evs2, Scope.drop sc s' = some (s2, sc2, uids2, evs2) →
      evs2.filter Event.isInvalidate = fids.map Event.invalidate := by
  rw [registerN_eq n Scope.new s halloc] at hreg
  simp only [Prod.mk.injEq, Scope.new, List.nil_append] at hreg
  obtain ⟨hsc, hs', hfids⟩ := hreg
  subst hsc hs' hfids
  have hok := runDestructors_ok ((regFids s.nextId n).map Destructor.mk)
    { s with funcs := regFuncs s.nextId n ++ s.funcs,
             nextId := s.nextId + 2 * n }
    ?hud ?hnd ?hcap2
  case hud =>
    intro d hd
    obtain ⟨fid, hfid, rfl⟩ := List.mem_map.mp hd
    exact ⟨fid + 1, lookup_regFids n s.nextId fid s.funcs hfid⟩
  case hnd =>
    have hcomp : ((regFids s.nextId n).map Destructor.mk).map Destructor.fid =
        regFids s.nextId n := by
      rw [List.map_map]
      exact List.map_id (regFids s.nextId n)
    rw [hcomp]
    exact regFids_nodup n s.nextId
  case hcap2 => exact hcap
  obtain ⟨s2, uids2, evs2, hrun⟩ := hok
  refine ⟨by simp, by simp [Scope.drop, hrun], ?_⟩
  intro s3 sc3 uids3 evs3 hdrop
  simp only [Scope.drop, hrun, Option.some.injEq, Prod.mk.injEq] at hdrop
  obtain ⟨_, _, hu3, he3⟩ := hdrop
  subst hu3 he3
  obtain ⟨hevs2, _, _, _⟩ := runDestructors_inv
    ((regFids s.nextId n).map Destructor.mk) _ s2 uids2 evs2 hrun
  subst hevs2
  rw [filter_trace]
  rw [List.map_map]
  rfl

/-- Closed witness for C3: two registrations, ids 0 and 2, invalidated in
exactly that order by the drop. -/
theorem scope_registration_order_witness :
    (Scope.mk [Destructor.mk 0, Destructor.mk 2]).destructors =
      ([0, 2] : List Nat).map Destructor.mk ∧
    ([Event.invalidate 0, Event.invalidate 2, Event.hostDrop 1,
        Event.hostDrop 3] : List Event).filter Event.isInvalidate =
      ([0, 2] : List Nat).map Event.invalidate := by
  have h := scope_registration_order (LuaState.mk [] 20 [] 0 true) 2
    (Scope.mk [Destructor.mk 0, Destructor.mk 2])
    (LuaState.mk [] 20 [(2, LuaValue.userdata 3), (0, LuaValue.userdata 1)] 4 true)
    [0, 2] rfl (by decide) (by decide)
  exact ⟨h.1, h.2.2
    (LuaState.mk [] 20 [(2, LuaValue.nil), (0, LuaValue.nil)] 4 true)
    (Scope.mk []) [1, 3]
    [Event.invalidate 0, Event.invalidate 2, Event.hostDrop 1, Event.hostDrop 3]
    (by decide)⟩

/-- C4: the `RefCell` exclusivity guard wrapped around an `FnMut` callback by
`Scope::create_function_mut`.  Starting unborrowed: the outer invocation
runs the wrapped body and its result is exactly the body's result; any
reentrant invocation made while the outer one holds the borrow (that is,
against the in-flight borrowed flag produced by `try_borrow_mut`) fails
immediately with `RecursiveMutCallback`, touching neither the flag nor any
state, so the outer invocation is unaffected; and after the outer call
releases the borrow a subsequent non-overlapping invocation again succeeds
and runs the body. -/
theorem fnmut_exclusivity_guard {σ α β : Type}
    (f : σ → α → Except Error (β × σ)) (st st2 : σ) (a a2 : α)
    (c : BorrowFlag) (hc : c.borrowed = false) :
    (mutWrapperCall c f st a).1 = f st a ∧
    (mutWrapperCall c f st a).2.borrowed = false ∧
    (∀ c1, try_borrow_mut c = some c1 →
      (mutWrapperCall c1 f st a).1 = Except.error Error.RecursiveMutCallback ∧
      (mutWrapperCall c1 f st a).2 = c1) ∧
    (mutWrapperCall (mutWrapperCall c f st a).2 f st2 a2).1 = f st2 a2 := by
  obtain ⟨b⟩ := c
  cases b with
  | false =>
    refine ⟨rfl, rfl, ?_, rfl⟩
    intro c1 hc1
    have hb : c1 = BorrowFlag.mk true := by
      simpa [try_borrow_mut] using hc1.symm
    subst hb
    exact ⟨rfl, rfl⟩
  | true => exact absurd hc (by simp)

/-- Closed witness for C4: the successor body runs when unborrowed and the
reentrant invocation fails with `RecursiveMutCallback`. -/
theorem fnmut_exclusivity_guard_witness :
    (mutWrapperCall (BorrowFlag.mk false)
      (fun (s : Nat) (_ : Unit) => Except.ok ((), s + 1)) 0 ()).1 =
      Except.ok ((), 1) ∧
    (mutWrapperCall (BorrowFlag.mk true)
      (fun (s : Nat) (_ : Unit) => Except.ok ((), s + 1)) 0 ()).1 =
      Except.error Error.RecursiveMutCallback := by
  have h := fnmut_exclusivity_guard
    (fun (s : Nat) (_ : Unit) => Except.ok ((), s + 1)) 0 0 () ()
    (BorrowFlag.mk false) rfl
  exact ⟨h.1, (h.2.2.1 (BorrowFlag.mk true) rfl).1⟩

/-- C5: the destructor thunk, run on a state where the registered function's
first upvalue still holds the callback userdata and the asserted headroom
is available, performs exactly its specified effect: it re-acquires the
state handle, brackets its pushes in a stack guard, pushes the function via
its reference, reads the first upvalue out as userdata taking host-side
ownership of it (the returned id), overwrites that upvalue slot with nil,
and hands the extracted userdata back for deferred destruction, leaving
every other part of the interpreter state unchanged. -/
theorem destructor_thunk_steps (s : LuaState) (d : Destructor) (uid : Nat)
    (h1 : lookupFunc s.funcs d.fid = some (LuaValue.userdata uid))
    (h2 : s.stack.length + 2 ≤ s.capacity) :
    runDestructor s d =
      some ({ s with funcs := setFunc s.funcs d.fid LuaValue.nil }, uid) :=
  runDestructor_ok s d uid h1 h2

/-- Closed witness for C5 at the concrete one-function state. -/
theorem destructor_thunk_steps_witness :
    runDestructor wState (Destructor.mk 0) =
      some ({ wState with funcs := setFunc wState.funcs 0 LuaValue.nil }, 1) :=
  destructor_thunk_steps wState (Destructor.mk 0) 1 (by decide) (by decide)

/-- C6: stack discipline of the destructor thunk.  Whenever the thunk runs
to completion its stack guard has restored the operand stack exactly as it
found it, and when fewer than the 2 asserted free slots are available the
thunk fails fast (the non-recoverable abort path) instead of pushing. -/
theorem destructor_stack_discipline (s : LuaState) (d : Destructor) :
    (∀ s1 uid, runDestructor s d = some (s1, uid) → s1.stack = s.stack) ∧
    (s.capacity < s.stack.length + 2 → runDestructor s d = none) := by
  constructor
  · intro s1 uid h
    rw [(runDestructor_inv s d s1 uid h).2]
  · intro hcap
    have hfalse : assert_stack s 2 = false := by
      simp only [assert_stack, decide_eq_false_iff_not]
      omega
    simp [runDestructor, hfalse]

/-- Closed witness for C6: the successful run restores the empty stack, and
the run without headroom aborts. -/
theorem destructor_stack_discipline_witness :
    ({ wState with funcs := setFunc wState.funcs 0 LuaValue.nil } :
      LuaState).stack = wState.stack ∧
    runDestructor wTight (Destructor.mk 0) = none := by
  constructor
  · exact (destructor_stack_discipline wState (Destructor.mk 0)).1
      { wState with funcs := setFunc wState.funcs 0 LuaValue.nil } 1 (by decide)
  · exact (destructor_stack_discipline wTight (Destructor.mk 0)).2 (by decide)

/-- C7: the `scope_func` test scenario.  Registering a scope callback that
sets the shared counter to 42 and invoking it inside the scope body leaves,
after the scope body returns and the scope is dropped, the counter at 42
and the strong count of the shared cell back at the pre-registration
baseline of `scenarioHost0`; inside the scope right after registration the
strong count was one above that baseline. -/
theorem scope_callback_effects_persist :
    scenarioRun = some (HostState.mk 42 scenarioHost0.rcCount,
      scenarioHost0.rcCount + 1) := by decide

/-- C8: scope lifecycle.  `Scope::new` produces a scope with no destructors;
at drop the destructor list is entirely drained, the invalidation events of
the trace are exactly the drained destructors each run once in order, the
resulting scope is inert (empty destructor list), and dropping the inert
scope again does nothing. -/
theorem scope_lifecycle (sc : Scope) (s s' : LuaState) (sc' : Scope)
    (uids : List Nat) (evs : List Event)
    (h : Scope.drop sc s = some (s', sc', uids, evs)) :
    Scope.new.destructors = [] ∧
    sc'.destructors = [] ∧
    evs.filter Event.isInvalidate =
      sc.destructors.map (fun d => Event.invalidate d.fid) ∧
    Scope.drop sc' s' = some (s', Scope.mk [], [], []) := by
  cases h1 : runDestructors s sc.destructors with
  | none => simp [Scope.drop, h1] at h
  | some r =>
    obtain ⟨s1, uids1, evs1⟩ := r
    simp only [Scope.drop, h1, Option.some.injEq, Prod.mk.injEq] at h
    obtain ⟨hs, hsc, hu, he⟩ := h
    subst hs hu he
    obtain ⟨hevs, _, _, _⟩ :=
      runDestructors_inv sc.destructors s s1 uids1 evs1 h1
    subst hevs
    refine ⟨rfl, ?_, filter_trace sc.destructors uids1, ?_⟩
    · rw [← hsc]
    · rw [← hsc]
      rfl

/-- Closed witness for C8 at the one-destructor scope. -/
theorem scope_lifecycle_witness :
    Scope.new.destructors = [] ∧
    (Scope.mk [] : Scope).destructors = [] ∧
    ([Event.invalidate 0, Event.hostDrop 1] : List Event).filter
      Event.isInvalidate =
      wScope.destructors.map (fun d => Event.invalidate d.fid) ∧
    Scope.drop (Scope.mk []) (LuaState.mk [] 10 [(0, LuaValue.nil)] 2 true) =
      some (LuaState.mk [] 10 [(0, LuaValue.nil)] 2 true,
        Scope.mk [], [], []) :=
  scope_lifecycle wScope wState
    (LuaState.mk [] 10 [(0, LuaValue.nil)] 2 true) (Scope.mk []) [1]
    [Event.invalidate 0, Event.hostDrop 1] (by decide)

/-- C9: dropping a `Scope` on which zero registrations were made is a no-op:
no destructor runs, no event is produced, the holding sequence is empty,
and the interpreter state comes back unchanged. -/
theorem scope_empty_drop_noop (sc : Scope) (s : LuaState)
    (h : sc.destructors = []) :
    Scope.drop sc s = some (s, Scope.mk [], [], []) := by
  obtain ⟨ds⟩ := sc
  simp only at h
  subst h
  rfl

/-- Closed witness for C9 at a concrete state. -/
theorem scope_empty_drop_noop_witness :
    Scope.drop (Scope.mk []) wState = some (wState, Scope.mk [], [], []) :=
  scope_empty_drop_noop (Scope.mk []) wState rfl

/-- C10: a failed underlying registration is propagated.  When the
interpreter's `create_callback` fails, both `Scope::create_function` and
`Scope::create_function_mut` return that same error, the scope's destructor
list is unchanged, and the interpreter state is untouched: a failed
registration contributes nothing to scope teardown. -/
theorem scope_failed_registration (sc : Scope) (s : LuaState) (e : Error)
    (h : LuaState.create_callback s = Except.error e) :
    Scope.create_function sc s = (Except.error e, sc, s) ∧
    Scope.create_function_mut sc s = (Except.error e, sc, s) := by
  constructor
  · simp [Scope.create_function, Scope.create_callback, h]
  · simp [Scope.create_function_mut, Scope.create_function,
      Scope.create_callback, h]

/-- Closed witness for C10 at the state whose registration fails. -/
theorem scope_failed_registration_witness :
    Scope.create_function wScope wFail =
      (Except.error Error.MemoryError, wScope, wFail) ∧
    Scope.create_function_mut wScope wFail =
      (Except.error Error.MemoryError, wScope, wFail) :=
  scope_failed_registration wScope wFail Error.MemoryError rfl

end Rlua
